import Mathlib

/-!
Verification of the live-wallets ingestion service (`src/server.py`).

The development shallowly embeds the parts of the program that the
specification's claims are about:

* `WalletDatabase` (the sqlite-backed bounded wallet store): a store is a
  list of `WalletRecord`s in insertion order; `add_wallet`,
  `cleanup_database`, `get_latest_wallets`, `get_count` mirror the
  corresponding methods.  SQLite's `REAL` column is modelled with `ℚ`
  (exact arithmetic over the values the program manipulates), `INTEGER`
  with `ℤ`, and `ORDER BY timestamp` with a stable merge sort on the
  insertion-ordered row list.
* `process_transaction_item` / `on_token_transaction` (the event pipeline):
  a decoded payload element is either a non-dictionary value or an event
  carrying optional `wallet`, `amount`, `volume`, `time` fields, with the
  source's defaults.  Python truthiness of the wallet string is modelled
  explicitly (absent/None or the empty string are falsy).
* `WebSocketService` (connection supervisor): a state record carrying the
  two channels' connected flags, the subscribed-rooms set, the pending
  delayed-reconnect tasks and an instrumentation counter of `connect()`
  invocations; the methods are small state transformers and the frames
  written to each channel are logged.
* the reconnect backoff computation, over `ℚ`, with Python's float `% 1`
  modelled by `Int.fract`.
-/

namespace LiveWallets

/-- A row of the `wallets` table: `wallet_address TEXT PRIMARY KEY,
timestamp INTEGER, amount REAL`. -/
structure WalletRecord where
  wallet_address : String
  timestamp : ℤ
  amount : ℚ
deriving DecidableEq, Repr

/-- The `wallets` table, as its rows in insertion order. -/
abbrev Store := List WalletRecord

/-- The comparison used by `ORDER BY timestamp ASC`. -/
def tsLe (r₁ r₂ : WalletRecord) : Bool :=
  r₁.timestamp ≤ r₂.timestamp

/-- The comparison used by `ORDER BY timestamp DESC`. -/
def tsGe (r₁ r₂ : WalletRecord) : Bool :=
  r₂.timestamp ≤ r₁.timestamp

/-- The rows selected by the eviction subquery
`SELECT wallet_address FROM wallets ORDER BY timestamp ASC LIMIT delete_count`
with `delete_count = count - 500000`. -/
def victimRows (s : Store) : List WalletRecord :=
  (s.mergeSort tsLe).take (s.length - 500000)

/-- The addresses returned by the eviction subquery. -/
def victimKeys (s : Store) : List String :=
  (victimRows s).map WalletRecord.wallet_address

/-- Method `WalletDatabase.cleanup_database`: if the row count exceeds 500000,
`DELETE FROM wallets WHERE wallet_address IN` the subquery's addresses. -/
def cleanup_database (s : Store) : Store :=
  if 500000 < s.length then
    s.filter (fun r => r.wallet_address ∉ victimKeys s)
  else s

/-- Method `WalletDatabase.add_wallet`: `DELETE FROM wallets WHERE wallet_address = ?`
then `INSERT` the new row, then `cleanup_database`. -/
def add_wallet (s : Store) (wallet_address : String) (timestamp : ℤ)
    (amount : ℚ) : Store :=
  cleanup_database
    ((s.filter (fun r => r.wallet_address ≠ wallet_address)) ++
      [⟨wallet_address, timestamp, amount⟩])

/-- Method `WalletDatabase.get_latest_wallets`: addresses of the first `count` rows
in descending-timestamp order. -/
def get_latest_wallets (s : Store) (count : ℕ) : List String :=
  ((s.mergeSort tsGe).take count).map WalletRecord.wallet_address

/-- Method `WalletDatabase.get_count`: `SELECT COUNT(*) FROM wallets`. -/
def get_count (s : Store) : ℕ :=
  s.length

/-- A decoded transaction event: the fields `process_transaction_item` reads
from a dictionary item.  `wallet = none` models an absent (or null) key;
`amount` and `volume` carry the source's default `0`; `time = none` means
the key is absent and the receipt time is used. -/
structure TxEvent where
  wallet : Option String
  amount : ℚ
  volume : ℚ
  time : Option ℤ
deriving DecidableEq, Repr

/-- One element of a decoded payload: either not a dictionary (the
`isinstance(item, dict)` guard fails) or an event dictionary. -/
inductive TxItem where
  | notDict : TxItem
  | event : TxEvent → TxItem
deriving DecidableEq, Repr

/-- Python truthiness of the value `item.get("wallet")`: `None` and the
empty string are falsy. -/
def walletTruthy : Option String → Bool
  | none => false
  | some w => w ≠ ""

/-- Function `process_transaction_item` with every `add_wallet` call succeeding:
skip non-dictionary items; store the wallet with the event's `volume` as
the recorded amount when `volume >= 60 and wallet_address` holds.  `now`
is the receipt time `int(time.time() * 1000)` used when `time` is absent. -/
def process_transaction_item (now : ℤ) (item : TxItem) (s : Store) : Store :=
  match item with
  | .notDict => s
  | .event e =>
    match e.wallet with
    | none => s
    | some w =>
      if 60 ≤ e.volume ∧ w ≠ "" then
        add_wallet s w (e.time.getD now) e.volume
      else s

/-- Function `process_transaction_item` with fallible storage: `writeFails` is the
environment oracle saying which `add_wallet` calls raise a database
exception (modelling sqlite errors); an `.error` is the exception
propagating out of the function. -/
def process_transaction_item_exc (writeFails : String → ℤ → ℚ → Bool)
    (now : ℤ) (item : TxItem) (s : Store) : Except Unit Store :=
  match item with
  | .notDict => .ok s
  | .event e =>
    match e.wallet with
    | none => .ok s
    | some w =>
      if 60 ≤ e.volume ∧ w ≠ "" then
        if writeFails w (e.time.getD now) e.volume then .error ()
        else .ok (add_wallet s w (e.time.getD now) e.volume)
      else .ok s

/-- The `for item in data: process_transaction_item(item)` loop inside
`on_token_transaction`'s single `try`: the first exception aborts the
remaining elements and is caught outside the loop, leaving the store as
it was at the point of failure. -/
def processBatch (writeFails : String → ℤ → ℚ → Bool) (now : ℤ) :
    List TxItem → Store → Store
  | [], s => s
  | item :: rest, s =>
    match process_transaction_item_exc writeFails now item s with
    | .ok s' => processBatch writeFails now rest s'
    | .error _ => s

/-- Function `on_token_transaction`: a list payload goes through the batch loop, a
single dictionary payload through one guarded call; in both cases the
`except` at the function boundary swallows the exception. -/
def on_token_transaction (writeFails : String → ℤ → ℚ → Bool) (now : ℤ)
    (data : TxItem ⊕ List TxItem) (s : Store) : Store :=
  match data with
  | .inl item =>
    match process_transaction_item_exc writeFails now item s with
    | .ok s' => s'
    | .error _ => s
  | .inr items => processBatch writeFails now items s

/-- Python's `"transaction" in room` substring test. -/
def roomIsTransaction (room : String) : Bool :=
  decide (("transaction".toList) <:+: room.toList)

/-- The observable state of a `WebSocketService` instance.
`mainConnected` / `transConnected` model `socket.sock.connected` for the
two channels (a `None` socket counts as not connected);
`subscribed_rooms` is the room set in insertion order; `sentMain` and
`sentTrans` log the rooms of the join frames written to each channel, in
order; `pendingReconnects` counts `delayed_reconnect` timers that are
scheduled but have not fired; `connectCalls` counts invocations of
`connect()`. -/
structure WsState where
  mainConnected : Bool
  transConnected : Bool
  subscribed_rooms : List String
  sentMain : List String
  sentTrans : List String
  pendingReconnects : ℕ
  reconnect_attempts : ℕ
  connectCalls : ℕ
deriving DecidableEq, Repr

/-- The state right after `__init__` fields are set, before any channel
has opened. -/
def initialWsState : WsState :=
  { mainConnected := false
    transConnected := false
    subscribed_rooms := []
    sentMain := []
    sentTrans := []
    pendingReconnects := 0
    reconnect_attempts := 0
    connectCalls := 0 }

/-- Append a join frame for `room` on the channel selected by
`self.transaction_socket if "transaction" in room else self.socket`. -/
def sendJoin (s : WsState) (room : String) : WsState :=
  if roomIsTransaction room then { s with sentTrans := s.sentTrans ++ [room] }
  else { s with sentMain := s.sentMain ++ [room] }

/-- Whether the channel routed for `room` is currently connected. -/
def routedConnected (s : WsState) (room : String) : Bool :=
  if roomIsTransaction room then s.transConnected else s.mainConnected

/-- Method `WebSocketService.join_room`: add the room to the set; send a join
frame on the routed channel only if that channel is connected. -/
def join_room (s : WsState) (room : String) : WsState :=
  let s' := { s with subscribed_rooms :=
    if room ∈ s.subscribed_rooms then s.subscribed_rooms
    else s.subscribed_rooms ++ [room] }
  if routedConnected s' room then sendJoin s' room else s'

/-- Method `WebSocketService.resubscribe_to_rooms`: only when both channels are
connected, send a join frame for every subscribed room on its routed
channel. -/
def resubscribe_to_rooms (s : WsState) : WsState :=
  if s.mainConnected ∧ s.transConnected then
    s.subscribed_rooms.foldl sendJoin s
  else s

/-- The main channel's open event: the socket reports connected and
`on_open` runs `resubscribe_to_rooms`. -/
def openMainChannel (s : WsState) : WsState :=
  resubscribe_to_rooms { s with mainConnected := true }

/-- The transaction channel's open event. -/
def openTransChannel (s : WsState) : WsState :=
  resubscribe_to_rooms { s with transConnected := true }

/-- Method `WebSocketService.disconnect`: close both sockets, set them to `None`,
clear `subscribed_rooms` and `transactions`.  Nothing cancels or
invalidates a pending `delayed_reconnect` timer. -/
def disconnect (s : WsState) : WsState :=
  { s with mainConnected := false
           transConnected := false
           subscribed_rooms := [] }

/-- Method `WebSocketService.reconnect`: schedule one `delayed_reconnect` timer. -/
def reconnect (s : WsState) : WsState :=
  { s with pendingReconnects := s.pendingReconnects + 1 }

/-- A pending `delayed_reconnect` timer fires: after the sleep it
unconditionally increments `reconnect_attempts` and calls `connect()`,
which re-creates and re-opens both channels. -/
def fireReconnect (s : WsState) : WsState :=
  if 0 < s.pendingReconnects then
    { s with pendingReconnects := s.pendingReconnects - 1
             reconnect_attempts := s.reconnect_attempts + 1
             connectCalls := s.connectCalls + 1
             mainConnected := true
             transConnected := true }
  else s

/-- Field `self.reconnect_delay` as set in `__init__`. -/
def reconnect_delay_base : ℚ := 2.5

/-- Field `self.reconnect_delay_max`. -/
def reconnect_delay_max : ℚ := 4.5

/-- Field `self.randomization_factor`. -/
def randomization_factor : ℚ := 0.5

/-- The delay computed by `WebSocketService.reconnect`:
`delay = min(reconnect_delay * 2 ** attempts, reconnect_delay_max)`,
`jitter = delay * randomization_factor`, and
`delay + (jitter * (2 * time.time() % 1 - 0.5))`.  Python parses
`2 * time.time() % 1` as `(2 * now) % 1`, i.e. the fractional part of
`2 * now`, modelled by `Int.fract`. -/
def computed_reconnect_delay (attempts : ℕ) (now : ℚ) : ℚ :=
  let delay := min (reconnect_delay_base * 2 ^ attempts) reconnect_delay_max
  let jitter := delay * randomization_factor
  delay + jitter * (Int.fract (2 * now) - 0.5)

/-- The delay formula as the specification words it:
`actual_delay = delay + jitter * (2*frac(now) - 0.5)` with `frac(now)`
the fractional-second part of `now`.  Kept for comparison with
`computed_reconnect_delay`. -/
def spec_reconnect_delay (attempts : ℕ) (now : ℚ) : ℚ :=
  let delay := min (reconnect_delay_base * 2 ^ attempts) reconnect_delay_max
  let jitter := delay * randomization_factor
  delay + jitter * (2 * Int.fract now - 0.5)

/-! ### Supporting lemmas about the store -/

theorem cleanup_of_le {s : Store} (h : s.length ≤ 500000) :
    cleanup_database s = s := by
  unfold cleanup_database
  rw [if_neg (by omega)]

theorem victimRows_length {s : Store} (h : 500000 < s.length) :
    (victimRows s).length = s.length - 500000 := by
  unfold victimRows
  rw [List.length_take, List.length_mergeSort]
  omega

theorem countP_mem_split (vk : List String) (l : Store) :
    l.countP (fun r => decide (r.wallet_address ∉ vk)) +
      l.countP (fun r => decide (r.wallet_address ∈ vk)) = l.length := by
  induction l with
  | nil => rfl
  | cons r t ih =>
    simp only [List.countP_cons, List.length_cons]
    by_cases hm : r.wallet_address ∈ vk
    · rw [if_neg (by simp [hm]), if_pos (by simp [hm])]
      omega
    · rw [if_pos (by simp [hm]), if_neg (by simp [hm])]
      omega

theorem victim_countP_ge (s : Store) (h : 500000 < s.length) :
    s.length - 500000 ≤
      s.countP (fun r => decide (r.wallet_address ∈ victimKeys s)) := by
  have hperm : List.Perm (s.mergeSort tsLe) s := List.mergeSort_perm s tsLe
  rw [← hperm.countP_eq]
  have hsplit : victimRows s ++ (s.mergeSort tsLe).drop (s.length - 500000) =
      s.mergeSort tsLe := List.take_append_drop _ _
  rw [← hsplit, List.countP_append]
  have hall : (victimRows s).countP
      (fun r => decide (r.wallet_address ∈ victimKeys s)) =
      (victimRows s).length := by
    rw [List.countP_eq_length]
    intro r hr
    simp only [decide_eq_true_eq, victimKeys]
    exact List.mem_map_of_mem WalletRecord.wallet_address hr
  rw [hall, victimRows_length h]
  omega

theorem cleanup_length_of_gt (s : Store) (h : 500000 < s.length) :
    (cleanup_database s).length =
      s.length - s.countP (fun r => decide (r.wallet_address ∈ victimKeys s)) := by
  unfold cleanup_database
  rw [if_pos h, ← List.countP_eq_length_filter]
  have hsum := countP_mem_split (victimKeys s) s
  omega

theorem cleanup_length_le (s : Store) (h : 500000 < s.length) :
    (cleanup_database s).length ≤ 500000 := by
  rw [cleanup_length_of_gt s h]
  have := victim_countP_ge s h
  omega

theorem add_wallet_length_le (s : Store)
    (w : String) (t : ℤ) (a : ℚ) : (add_wallet s w t a).length ≤ 500000 := by
  unfold add_wallet
  have hf : (s.filter (fun r => r.wallet_address ≠ w)).length ≤ s.length :=
    List.length_filter_le _ s
  by_cases hc : ((s.filter (fun r => r.wallet_address ≠ w)) ++
      [(⟨w, t, a⟩ : WalletRecord)]).length ≤ 500000
  · rw [cleanup_of_le hc]
    exact hc
  · exact cleanup_length_le _ (by omega)

theorem tsLe_trans : ∀ (a b c : WalletRecord), tsLe a b → tsLe b c → tsLe a c := by
  intro a b c hab hbc
  simp only [tsLe, decide_eq_true_eq] at *
  omega

theorem tsLe_total : ∀ (a b : WalletRecord), tsLe a b || tsLe b a := by
  intro a b
  simp only [tsLe, Bool.or_eq_true, decide_eq_true_eq]
  omega

/-- With no duplicate addresses, a row of `s` whose address the eviction
subquery returned is itself one of the subquery's rows. -/
theorem mem_victimRows_of_key_mem {s : Store} {r : WalletRecord}
    (hn : (s.map WalletRecord.wallet_address).Nodup)
    (hr : r ∈ s) (hk : r.wallet_address ∈ victimKeys s) : r ∈ victimRows s := by
  unfold victimKeys at hk
  obtain ⟨v, hv, hkey⟩ := List.mem_map.mp hk
  have hvL : v ∈ s.mergeSort tsLe := List.take_subset _ _ hv
  have hvS : v ∈ s := (List.mergeSort_perm s tsLe).mem_iff.mp hvL
  have : v = r := List.inj_on_of_nodup_map hn hvS hr hkey
  exact this ▸ hv

/-- With no duplicate addresses, the rows the subquery returned count
exactly `count - 500000` among the rows of `s`. -/
theorem victim_countP_eq (s : Store)
    (hn : (s.map WalletRecord.wallet_address).Nodup) (h : 500000 < s.length) :
    s.countP (fun r => decide (r.wallet_address ∈ victimKeys s)) =
      s.length - 500000 := by
  have hperm : List.Perm (s.mergeSort tsLe) s := List.mergeSort_perm s tsLe
  rw [← hperm.countP_eq]
  have hsplit : victimRows s ++ (s.mergeSort tsLe).drop (s.length - 500000) =
      s.mergeSort tsLe := List.take_append_drop _ _
  rw [← hsplit, List.countP_append]
  have htake : (victimRows s).countP
      (fun r => decide (r.wallet_address ∈ victimKeys s)) =
      (victimRows s).length := by
    rw [List.countP_eq_length]
    intro r hr
    simp only [decide_eq_true_eq, victimKeys]
    exact List.mem_map_of_mem WalletRecord.wallet_address hr
  have hLnd : (s.mergeSort tsLe).Nodup :=
    hperm.symm.nodup (List.Nodup.of_map _ hn)
  have hdrop : ((s.mergeSort tsLe).drop (s.length - 500000)).countP
      (fun r => decide (r.wallet_address ∈ victimKeys s)) = 0 := by
    rw [List.countP_eq_zero]
    intro a ha hmem
    simp only [decide_eq_true_eq] at hmem
    have haS : a ∈ s := hperm.mem_iff.mp (List.drop_subset _ _ ha)
    have haV : a ∈ victimRows s := mem_victimRows_of_key_mem hn haS hmem
    exact List.disjoint_take_drop hLnd (Nat.le_refl _) haV ha
  rw [htake, hdrop, victimRows_length h]
  omega

/-- Rows returned by the eviction subquery have timestamps no larger than
any row the sort placed after them. -/
theorem victim_timestamp_le {s : Store} {r r' : WalletRecord}
    (hr : r ∈ victimRows s)
    (hr' : r' ∈ (s.mergeSort tsLe).drop (s.length - 500000)) :
    r.timestamp ≤ r'.timestamp := by
  have hs := List.sorted_mergeSort tsLe_trans tsLe_total s
  rw [← List.take_append_drop (s.length - 500000) (s.mergeSort tsLe)] at hs
  have hcross := (List.pairwise_append.mp hs).2.2 r hr r' hr'
  simpa [tsLe] using hcross

theorem add_wallet_of_lt {s : Store} (h : s.length < 500000)
    (w : String) (t : ℤ) (a : ℚ) :
    add_wallet s w t a =
      (s.filter (fun r => r.wallet_address ≠ w)) ++ [⟨w, t, a⟩] := by
  unfold add_wallet
  apply cleanup_of_le
  have hf : (s.filter (fun r => r.wallet_address ≠ w)).length ≤ s.length :=
    List.length_filter_le _ s
  rw [List.length_append]
  simp only [List.length_singleton]
  omega

/-! ### Claim theorems -/

/-- Claim C1: executed sequentially (no concurrent writers), the record
count is at most 500000 immediately after every `add_wallet` call
returns: first, a single upsert on any store whatsoever leaves at most
500000 records; second, every sequence of upserts from the initially
empty store does so (each prefix of `calls` being itself such a
sequence, this covers the state after every call of the sequence). -/
theorem C1_store_count_within_cap :
    (∀ (s : Store) (w : String) (t : ℤ) (a : ℚ),
      get_count (add_wallet s w t a) ≤ 500000) ∧
    (∀ calls : List (String × ℤ × ℚ),
      get_count (calls.foldl (fun s c => add_wallet s c.1 c.2.1 c.2.2) []) ≤
        500000) := by
  constructor
  · intro s w t a
    exact add_wallet_length_le s w t a
  · intro calls
    have key : ∀ (l : List (String × ℤ × ℚ)) (s : Store), s.length ≤ 500000 →
        (l.foldl (fun s c => add_wallet s c.1 c.2.1 c.2.2) s).length ≤
          500000 := by
      intro l
      induction l with
      | nil =>
        intro s hs
        simpa using hs
      | cons c rest ih =>
        intro s _
        rw [List.foldl_cons]
        exact ih _ (add_wallet_length_le s c.1 c.2.1 c.2.2)
    simpa [get_count] using key calls [] (by simp)

/-- Claim C3: when capacity enforcement runs on a store whose count
exceeds 500000 (addresses pairwise distinct, as the primary key
guarantees), the surviving rows are a sublist of the original rows (so no
record other than the deleted ones is touched), the count drops to
exactly 500000 (exactly `count - 500000` records deleted), and every
deleted record's timestamp is at most every surviving record's timestamp
(the deleted set is the `count - 500000` smallest-timestamp records). -/
theorem C3_cleanup_evicts_oldest (s : Store)
    (hn : (s.map WalletRecord.wallet_address).Nodup)
    (h : 500000 < get_count s) :
    (cleanup_database s).length = 500000 ∧
    (cleanup_database s).Sublist s ∧
    (∀ r ∈ s, r ∉ cleanup_database s →
      ∀ r' ∈ cleanup_database s, r.timestamp ≤ r'.timestamp) := by
  have h' : 500000 < s.length := h
  refine ⟨?_, ?_, ?_⟩
  · rw [cleanup_length_of_gt s h', victim_countP_eq s hn h']
    omega
  · unfold cleanup_database
    rw [if_pos h']
    exact List.filter_sublist s
  · intro r hr hrdel r' hr'
    have hkey : r.wallet_address ∈ victimKeys s := by
      by_contra hnk
      apply hrdel
      unfold cleanup_database
      rw [if_pos h']
      exact List.mem_filter.mpr ⟨hr, by simpa using hnk⟩
    have hrvic : r ∈ victimRows s := mem_victimRows_of_key_mem hn hr hkey
    have hr'mem := hr'
    unfold cleanup_database at hr'mem
    rw [if_pos h'] at hr'mem
    obtain ⟨hr's, hr'k⟩ := List.mem_filter.mp hr'mem
    have hr'nk : r'.wallet_address ∉ victimKeys s := by simpa using hr'k
    have hr'L : r' ∈ s.mergeSort tsLe :=
      (List.mergeSort_perm s tsLe).mem_iff.mpr hr's
    have hsplitmem : r' ∈ (s.mergeSort tsLe).take (s.length - 500000) ++
        (s.mergeSort tsLe).drop (s.length - 500000) := by
      rw [List.take_append_drop]
      exact hr'L
    rcases List.mem_append.mp hsplitmem with htk | hdp
    · exact absurd
        (by
          unfold victimKeys victimRows
          exact List.mem_map_of_mem WalletRecord.wallet_address htk)
        hr'nk
    · exact victim_timestamp_le hrvic hdp

/-- An address family with pairwise distinct values, used to build a
concrete over-capacity store. -/
def natKey (i : ℕ) : String :=
  String.mk (List.replicate i 'a')

theorem natKey_injective : Function.Injective natKey := by
  intro i j hij
  have hlen := congrArg String.length hij
  simpa [natKey] using hlen

/-- A concrete store of 500001 rows with distinct addresses and strictly
increasing timestamps. -/
def bigStore : Store :=
  (List.range 500001).map (fun i => ⟨natKey i, (i : ℤ), 0⟩)

theorem C3_witness :
    (cleanup_database bigStore).length = 500000 ∧
    (cleanup_database bigStore).Sublist bigStore ∧
    (∀ r ∈ bigStore, r ∉ cleanup_database bigStore →
      ∀ r' ∈ cleanup_database bigStore, r.timestamp ≤ r'.timestamp) :=
  C3_cleanup_evicts_oldest bigStore
    (by
      have hmap : bigStore.map WalletRecord.wallet_address =
          (List.range 500001).map natKey := by
        simp [bigStore, List.map_map]
      rw [hmap]
      exact List.Nodup.map natKey_injective (List.nodup_range 500001))
    (by
      simp only [get_count, bigStore, List.length_map, List.length_range]
      omega)

/-- Claim C4: on any store below capacity, upserting the same address
twice leaves exactly one record for that address, carrying the second
call's timestamp and amount — also when the second timestamp is
chronologically earlier than the first. -/
theorem C4_upsert_last_write_wins (s : Store) (k : String)
    (t₁ t₂ : ℤ) (a₁ a₂ : ℚ) (h : s.length < 500000) :
    (add_wallet (add_wallet s k t₁ a₁) k t₂ a₂).filter
      (fun r => r.wallet_address = k) = [⟨k, t₂, a₂⟩] := by
  have hflen : (s.filter (fun r => r.wallet_address ≠ k)).length ≤ s.length :=
    List.length_filter_le _ s
  have e₁ : add_wallet s k t₁ a₁ =
      s.filter (fun r => r.wallet_address ≠ k) ++ [⟨k, t₁, a₁⟩] := by
    unfold add_wallet
    apply cleanup_of_le
    rw [List.length_append]
    simp only [List.length_singleton]
    omega
  have hdel : (add_wallet s k t₁ a₁).filter (fun r => r.wallet_address ≠ k) =
      s.filter (fun r => r.wallet_address ≠ k) := by
    rw [e₁, List.filter_append]
    simp [List.filter_filter]
  have e₂ : add_wallet (add_wallet s k t₁ a₁) k t₂ a₂ =
      s.filter (fun r => r.wallet_address ≠ k) ++ [⟨k, t₂, a₂⟩] := by
    have hout : add_wallet (add_wallet s k t₁ a₁) k t₂ a₂ =
        cleanup_database
          ((add_wallet s k t₁ a₁).filter (fun r => r.wallet_address ≠ k) ++
            [⟨k, t₂, a₂⟩]) := rfl
    rw [hout, hdel]
    apply cleanup_of_le
    rw [List.length_append]
    simp only [List.length_singleton]
    omega
  rw [e₂, List.filter_append]
  simp [List.filter_filter]

theorem C4_witness :
    (add_wallet (add_wallet [] "W1" 50 (10 : ℚ)) "W1" 3 (7 : ℚ)).filter
      (fun r => r.wallet_address = "W1") = [⟨"W1", 3, 7⟩] :=
  C4_upsert_last_write_wins [] "W1" 50 3 10 7 (by norm_num)

/-- Claim C9: absent intervening writes, `get_latest_wallets a` is exactly
the first `a` elements of `get_latest_wallets b`, in the same order,
whenever `a ≤ b ≤ count`. -/
theorem C9_latest_nested_reads (s : Store) (a b : ℕ) (hab : a ≤ b)
    (hb : b ≤ get_count s) :
    get_latest_wallets s a = (get_latest_wallets s b).take a := by
  unfold get_latest_wallets
  rw [List.map_take, List.map_take, List.take_take, Nat.min_eq_left hab]

theorem C9_witness :
    get_latest_wallets [⟨"A", 1, 0⟩, ⟨"B", 2, 0⟩] 1 =
      (get_latest_wallets [⟨"A", 1, 0⟩, ⟨"B", 2, 0⟩] 2).take 1 :=
  C9_latest_nested_reads [⟨"A", 1, 0⟩, ⟨"B", 2, 0⟩] 1 2 (by norm_num)
    (by simp [get_count])

/-- Claim C2 counterexample: the event `{wallet: "", amount: 0, volume: 60,
time: 5}` has its wallet field present (`isSome`) and `volume ≥ 60`, yet
processing it produces no store mutation: the code tests Python
truthiness of the wallet value and the empty string is falsy. -/
theorem C2_counterexample :
    (60 : ℚ) ≤ (60 : ℚ) ∧ (Option.some "").isSome = true ∧
    process_transaction_item 0 (.event ⟨some "", 0, 60, some 5⟩) [] = [] := by
  refine ⟨le_refl _, rfl, ?_⟩
  simp [process_transaction_item]

/-- Claim C2, amended: an event is persisted iff `volume ≥ 60` and its
wallet is present and non-empty (Python truthiness); a qualifying event's
record is upserted and a non-qualifying event leaves the store exactly as
it was.  The store is assumed below capacity so that the freshly written
record is not itself evicted; the boundary cases (`volume = 59.999` never
persisted, `volume = 60` persisted) are instances. -/
theorem C2_persist_iff_qualifies (now : ℤ) (e : TxEvent) (s : Store)
    (hs : s.length < 500000) :
    ((60 ≤ e.volume ∧ ∃ w, e.wallet = some w ∧ w ≠ "") →
      ∃ w, e.wallet = some w ∧
        (⟨w, e.time.getD now, e.volume⟩ : WalletRecord) ∈
          process_transaction_item now (.event e) s) ∧
    (¬ (60 ≤ e.volume ∧ ∃ w, e.wallet = some w ∧ w ≠ "") →
      process_transaction_item now (.event e) s = s) := by
  obtain ⟨wopt, am, vol, tm⟩ := e
  constructor
  · rintro ⟨hv, w, hw, hne⟩
    simp only at hw
    subst hw
    refine ⟨w, rfl, ?_⟩
    show (⟨w, tm.getD now, vol⟩ : WalletRecord) ∈
      (if 60 ≤ vol ∧ w ≠ "" then add_wallet s w (tm.getD now) vol else s)
    rw [if_pos ⟨hv, hne⟩, add_wallet_of_lt hs]
    exact List.mem_append_right _ (List.mem_singleton_self _)
  · intro hnq
    match hwc : wopt with
    | none => rfl
    | some w =>
      show (if 60 ≤ vol ∧ w ≠ "" then add_wallet s w (tm.getD now) vol else s)
        = s
      rw [if_neg]
      rintro ⟨hv, hne⟩
      exact hnq ⟨hv, w, rfl, hne⟩

theorem C2_witness :
    (((60 : ℚ) ≤ 60 ∧ ∃ w, (some "W1" : Option String) = some w ∧ w ≠ "") →
      ∃ w, (some "W1" : Option String) = some w ∧
        (⟨w, 1000, 60⟩ : WalletRecord) ∈
          process_transaction_item 0 (.event ⟨some "W1", 0, 60, some 1000⟩) []) ∧
    (¬ ((60 : ℚ) ≤ 60 ∧ ∃ w, (some "W1" : Option String) = some w ∧ w ≠ "") →
      process_transaction_item 0 (.event ⟨some "W1", 0, 60, some 1000⟩) [] = []) :=
  C2_persist_iff_qualifies 0 ⟨some "W1", 0, 60, some 1000⟩ [] (by norm_num)

/-- Claim C10: a qualifying event is stored with the event's `volume`
value as the record's `amount` (and the event's time as its timestamp):
the record written for the event's address is exactly
`⟨w, time, volume⟩`, so the inbound event's `amount` field is never what
is stored. -/
theorem C10_stored_amount_is_volume (now : ℤ) (e : TxEvent) (s : Store)
    (w : String) (hw : e.wallet = some w) (hne : w ≠ "")
    (hv : 60 ≤ e.volume) (hs : s.length < 500000) :
    (⟨w, e.time.getD now, e.volume⟩ : WalletRecord) ∈
      process_transaction_item now (.event e) s ∧
    ∀ r ∈ process_transaction_item now (.event e) s,
      r.wallet_address = w → r = ⟨w, e.time.getD now, e.volume⟩ := by
  obtain ⟨wopt, am, vol, tm⟩ := e
  simp only at hw hv ⊢
  subst hw
  have hred : process_transaction_item now (.event ⟨some w, am, vol, tm⟩) s =
      add_wallet s w (tm.getD now) vol := by
    show (if 60 ≤ vol ∧ w ≠ "" then add_wallet s w (tm.getD now) vol else s)
      = add_wallet s w (tm.getD now) vol
    rw [if_pos ⟨hv, hne⟩]
  rw [hred, add_wallet_of_lt hs]
  constructor
  · exact List.mem_append_right _ (List.mem_singleton_self _)
  · intro r hrmem hrk
    rcases List.mem_append.mp hrmem with hf | hone
    · have hne' := (List.mem_filter.mp hf).2
      simp only [decide_eq_true_eq] at hne'
      exact absurd hrk hne'
    · simpa using hone

theorem C10_witness :
    (⟨"W1", 1000, 80⟩ : WalletRecord) ∈
      process_transaction_item 0 (.event ⟨some "W1", 7, 80, some 1000⟩) [] ∧
    ∀ r ∈ process_transaction_item 0 (.event ⟨some "W1", 7, 80, some 1000⟩) [],
      r.wallet_address = "W1" → r = ⟨"W1", 1000, 80⟩ :=
  C10_stored_amount_is_volume 0 ⟨some "W1", 7, 80, some 1000⟩ [] "W1" rfl
    (by decide) (by norm_num) (by norm_num)

/-- Claim C5 counterexample: starting from the initial state, schedule a
reconnect, call `disconnect()`, then let the pending timer fire: a new
`connect()` invocation happens (the counter goes from 0 to 1) and both
channels are re-established.  `disconnect` neither cancels the timer nor
sets any guard that `delayed_reconnect` would check. -/
theorem C5_counterexample :
    (fireReconnect (disconnect (reconnect initialWsState))).connectCalls = 1 ∧
    (fireReconnect (disconnect (reconnect initialWsState))).mainConnected
      = true ∧
    (fireReconnect (disconnect (reconnect initialWsState))).transConnected
      = true :=
  ⟨rfl, rfl, rfl⟩

/-- Claim C5, amended: a reconnect scheduled before `disconnect()` is not
suppressed — when the pending timer fires after the disconnect it invokes
`connect()` (the counter increments) and re-establishes both channels. -/
theorem C5_pending_reconnect_fires (s : WsState)
    (h : 0 < s.pendingReconnects) :
    (fireReconnect (disconnect s)).connectCalls = s.connectCalls + 1 ∧
    (fireReconnect (disconnect s)).mainConnected = true ∧
    (fireReconnect (disconnect s)).transConnected = true := by
  unfold disconnect fireReconnect
  rw [if_pos]
  · exact ⟨rfl, rfl, rfl⟩
  · exact h

theorem C5_witness :
    (fireReconnect (disconnect (reconnect initialWsState))).connectCalls =
      (reconnect initialWsState).connectCalls + 1 ∧
    (fireReconnect (disconnect (reconnect initialWsState))).mainConnected
      = true ∧
    (fireReconnect (disconnect (reconnect initialWsState))).transConnected
      = true :=
  C5_pending_reconnect_fires (reconnect initialWsState) (by decide)

/-- Claim C6 counterexample: with attempt 0, at `now = 0.5` seconds the
code's reconnect delay is `1.875`, outside the claimed interval
`[2.5, 3.75]`; and at `now = 0.75` the code's delay differs from the
claimed formula `delay + jitter * (2*frac(now) - 0.5)`, because the code
computes `(2*now) % 1`, not `2*(now % 1)`. -/
theorem C6_counterexample :
    computed_reconnect_delay 0 (1/2) = 15/8 ∧
    ¬ ((5/2 : ℚ) ≤ 15/8) ∧
    computed_reconnect_delay 0 (3/4) ≠ spec_reconnect_delay 0 (3/4) := by
  have hf1 : Int.fract ((2 : ℚ) * (1/2)) = 0 := by
    norm_num
  have hf2 : Int.fract ((2 : ℚ) * (3/4)) = 1/2 := by
    norm_num [Int.fract]
  have hf3 : Int.fract ((3 : ℚ)/4) = 3/4 := by
    rw [Int.fract_eq_self]
    norm_num
  refine ⟨?_, by norm_num, ?_⟩
  · simp only [computed_reconnect_delay, reconnect_delay_base,
      reconnect_delay_max, randomization_factor, pow_zero, mul_one, hf1]
    norm_num
  · simp only [computed_reconnect_delay, spec_reconnect_delay,
      reconnect_delay_base, reconnect_delay_max, randomization_factor,
      pow_zero, mul_one, hf2, hf3]
    norm_num

/-- Claim C6, amended: the code computes
`delay = min(base * 2^attempt, max_delay)`, `jitter = delay * 0.5`, and
`actual = delay + jitter * (frac(2*now) - 0.5)` with `frac` the
fractional part; with base 2.5, max 4.5, jitter factor 0.5 and attempt 0,
the actual delay lies in `[1.875, 3.125)` for every value of `now`. -/
theorem C6_delay_bounds (now : ℚ) :
    15/8 ≤ computed_reconnect_delay 0 now ∧
    computed_reconnect_delay 0 now < 25/8 := by
  have h0 := Int.fract_nonneg (2 * now)
  have h1 := Int.fract_lt_one (2 * now)
  simp only [computed_reconnect_delay, reconnect_delay_base,
    reconnect_delay_max, randomization_factor, pow_zero, mul_one]
  rw [min_eq_left (by norm_num)]
  constructor
  · nlinarith
  · nlinarith

/-- A storage oracle under which the `add_wallet` call for address `"W1"`
raises a database exception and every other write succeeds. -/
def failW1 : String → ℤ → ℚ → Bool := fun w _ _ => w == "W1"

/-- Claim C7 counterexample: in the batch `[e1, e2]` where
`e1 = {wallet: "W1", volume: 60, time: 1}` has a failing storage write
and `e2 = {wallet: "W2", volume: 60, time: 2}` qualifies and its own
write succeeds, processing leaves the store empty — `e2` is never
processed, because the exception raised inside the `for` loop is caught
outside it, aborting the remaining batch elements. -/
theorem C7_counterexample :
    failW1 "W2" 2 60 = false ∧
    processBatch failW1 0
      [.event ⟨some "W1", 0, 60, some 1⟩, .event ⟨some "W2", 0, 60, some 2⟩]
      [] = [] := by
  constructor
  · rfl
  · rfl

/-- Claim C7, amended: a malformed (non-dictionary) batch element is
skipped while every remaining element is still processed; but an element
whose storage write raises aborts the remaining elements of the batch,
leaving the store as it was at the failure point: the exception is
caught at the whole-batch boundary, not per element. -/
theorem C7_batch_error_behavior :
    (∀ (wf : String → ℤ → ℚ → Bool) (now : ℤ) (rest : List TxItem)
      (s : Store),
      processBatch wf now (.notDict :: rest) s = processBatch wf now rest s) ∧
    (∀ (wf : String → ℤ → ℚ → Bool) (now : ℤ) (e : TxEvent) (w : String)
      (rest : List TxItem) (s : Store),
      e.wallet = some w → w ≠ "" → 60 ≤ e.volume →
      wf w (e.time.getD now) e.volume = true →
      processBatch wf now (.event e :: rest) s = s) := by
  constructor
  · intro wf now rest s
    rfl
  · intro wf now e w rest s hw hne hv hf
    obtain ⟨wopt, am, vol, tm⟩ := e
    simp only at hw hv hf
    subst hw
    have hexc : process_transaction_item_exc wf now
        (.event ⟨some w, am, vol, tm⟩) s = .error () := by
      show (if 60 ≤ vol ∧ w ≠ "" then
          if wf w (tm.getD now) vol then
            (Except.error () : Except Unit Store)
          else Except.ok (add_wallet s w (tm.getD now) vol)
        else Except.ok s) = Except.error ()
      rw [if_pos ⟨hv, hne⟩, if_pos hf]
    show (match process_transaction_item_exc wf now
        (.event ⟨some w, am, vol, tm⟩) s with
      | .ok s' => processBatch wf now rest s'
      | .error _ => s) = s
    rw [hexc]

theorem C7_witness :
    processBatch failW1 0 [.notDict, .event ⟨some "W3", 0, 70, some 3⟩] [] =
      processBatch failW1 0 [.event ⟨some "W3", 0, 70, some 3⟩] [] ∧
    processBatch failW1 0
      [.event ⟨some "W1", 0, 60, some 1⟩, .event ⟨some "W2", 0, 60, some 2⟩]
      [] = [] :=
  ⟨C7_batch_error_behavior.1 failW1 0 [.event ⟨some "W3", 0, 70, some 3⟩] [],
   C7_batch_error_behavior.2 failW1 0 ⟨some "W1", 0, 60, some 1⟩ "W1"
     [.event ⟨some "W2", 0, 60, some 2⟩] [] rfl (by decide) (by norm_num) rfl⟩

/-- Any room of the form `"transaction:" ++ tok` contains the substring
`"transaction"`, so it is routed to the transaction channel. -/
theorem transaction_room_routing (tok : String) :
    roomIsTransaction ("transaction:" ++ tok) = true := by
  rw [roomIsTransaction, decide_eq_true_eq]
  refine ⟨[], ':' :: tok.toList, ?_⟩
  show "transaction".data ++ (':' :: tok.data) = ("transaction:" ++ tok).data
  rw [String.data_append]
  rfl

/-- Claim C8: issuing `join_room ("transaction:" ++ tok)` while neither
channel is connected sends no join frame; after both channels open (in
either order), exactly one join frame for the room has been sent, and it
went out on the transaction channel. -/
theorem C8_join_deferred_until_both_connected (tok : String) :
    (join_room initialWsState ("transaction:" ++ tok)).sentMain = [] ∧
    (join_room initialWsState ("transaction:" ++ tok)).sentTrans = [] ∧
    (openTransChannel (openMainChannel
        (join_room initialWsState ("transaction:" ++ tok)))).sentTrans =
      ["transaction:" ++ tok] ∧
    (openTransChannel (openMainChannel
        (join_room initialWsState ("transaction:" ++ tok)))).sentMain = [] ∧
    (openMainChannel (openTransChannel
        (join_room initialWsState ("transaction:" ++ tok)))).sentTrans =
      ["transaction:" ++ tok] ∧
    (openMainChannel (openTransChannel
        (join_room initialWsState ("transaction:" ++ tok)))).sentMain = [] := by
  have hroom := transaction_room_routing tok
  simp [join_room, openMainChannel, openTransChannel, resubscribe_to_rooms,
    sendJoin, routedConnected, initialWsState, hroom]

theorem C8_witness :
    (join_room initialWsState ("transaction:" ++ "TOK")).sentMain = [] ∧
    (join_room initialWsState ("transaction:" ++ "TOK")).sentTrans = [] ∧
    (openTransChannel (openMainChannel
        (join_room initialWsState ("transaction:" ++ "TOK")))).sentTrans =
      ["transaction:" ++ "TOK"] ∧
    (openTransChannel (openMainChannel
        (join_room initialWsState ("transaction:" ++ "TOK")))).sentMain = [] ∧
    (openMainChannel (openTransChannel
        (join_room initialWsState ("transaction:" ++ "TOK")))).sentTrans =
      ["transaction:" ++ "TOK"] ∧
    (openMainChannel (openTransChannel
        (join_room initialWsState ("transaction:" ++ "TOK")))).sentMain = [] :=
  C8_join_deferred_until_both_connected "TOK"

theorem C1_witness :
    get_count (add_wallet [⟨"W0", 1, 2⟩] "W1" 5 100) ≤ 500000 ∧
    get_count ([("W1", (5 : ℤ), (100 : ℚ)), ("W2", 6, 101)].foldl
      (fun s c => add_wallet s c.1 c.2.1 c.2.2) []) ≤ 500000 :=
  ⟨C1_store_count_within_cap.1 [⟨"W0", 1, 2⟩] "W1" 5 100,
   C1_store_count_within_cap.2 [("W1", 5, 100), ("W2", 6, 101)]⟩

theorem C6_witness :
    15/8 ≤ computed_reconnect_delay 0 (1/3) ∧
    computed_reconnect_delay 0 (1/3) < 25/8 :=
  C6_delay_bounds (1/3)

end LiveWallets
